import Mathlib

/-!
Shallow embedding of the retry core of the `api-spawner` CLI:
`RetryManager` (retry loop with exponential backoff, Retry-After extraction,
error classification, bulk batching) and `AwsRateLimiter` (adaptive
per-key rate-limit history).

Conventions of the embedding:
* JavaScript numbers are modelled as `ℚ` (all arithmetic here is exact:
  integers scaled by 1000, factors 1.2, 0.1, 0.5).
* `undefined`/absent fields are `Option`; JavaScript truthiness tests on
  strings/numbers/options are modelled by explicit helper functions.
* An asynchronous operation is modelled by the attempt-indexed outcome
  function `ℕ → Except JsError T` (invocation k yields `op k`, 1-based),
  and `Math.random()` by an attempt-indexed stream `ℕ → ℚ` of values
  in `[0, 1)`.
* Side effects of `retry` (number of invocations of the operation, the
  sleeps performed) are returned as an explicit trace in `RetryExec`.
-/

namespace ApiSpawner

/-- JS `parseInt(s, 10)` applied to the maximal digit prefix. -/
def digitsPrefix (l : List Char) : Option ℕ :=
  let ds := l.takeWhile Char.isDigit
  if ds.isEmpty then none
  else some (ds.foldl (fun acc c => acc * 10 + (c.toNat - 48)) 0)

/-- JS `parseInt(s, 10)`: skip leading whitespace, optional sign, maximal
digit prefix; `none` models `NaN`. -/
def parseInt (s : String) : Option ℤ :=
  match s.toList.dropWhile Char.isWhitespace with
  | '-' :: rest => (digitsPrefix rest).map (fun n => -(n : ℤ))
  | '+' :: rest => (digitsPrefix rest).map (fun n => (n : ℤ))
  | l => (digitsPrefix l).map (fun n => (n : ℤ))

/-- JS `a || b` on possibly-absent strings (empty string is falsy). -/
def jsOrStr : Option String → Option String → Option String
  | some s, y => if s = "" then y else some s
  | none, y => y

/-- JS `x || d` for a possibly-absent number field (`0` is falsy). -/
def jsOrQ (x : Option ℚ) (d : ℚ) : ℚ :=
  match x with
  | some v => if v = 0 then d else v
  | none => d

/-- JS `x || d` for a possibly-absent nonnegative-integer field (`0` is falsy). -/
def jsOrNat (x : Option ℕ) (d : ℕ) : ℕ :=
  match x with
  | some v => if v = 0 then d else v
  | none => d

/-- The `$metadata` object of an AWS SDK v3 error. -/
structure ErrMeta where
  httpStatusCode : Option ℤ := none
  httpHeaders : Option (List (String × String)) := none
deriving DecidableEq

/-- The error shape inspected by the retry core. -/
structure JsError where
  meta : Option ErrMeta := none
  name : Option String := none
  code : Option String := none
deriving DecidableEq

/-- `error.$metadata?.httpStatusCode`. -/
def JsError.status (e : JsError) : Option ℤ :=
  e.meta.bind ErrMeta.httpStatusCode

/-- `error.$metadata?.httpHeaders`, an absent header object behaving as empty. -/
def JsError.headersD (e : JsError) : List (String × String) :=
  (e.meta.bind ErrMeta.httpHeaders).getD []

/-- `RetryManager.extractRetryAfter`: for a 429 error, read the
`retry-after` / `Retry-After` header, parse it, and when it is a positive
integer of seconds return it converted to milliseconds. -/
def extractRetryAfter (e : JsError) : Option ℚ :=
  if e.status = some 429 then
    match jsOrStr (e.headersD.lookup "retry-after") (e.headersD.lookup "Retry-After") with
    | some s =>
      if s = "" then none
      else
        match parseInt s with
        | some n => if 0 < n then some ((n : ℚ) * 1000) else none
        | none => none
    | none => none
  else none

/-- `RetryManager.calculateDelay`: exponential backoff capped at `maxDelay`,
with 10% jitter scaled by the random draw `r` (standing for `Math.random()`). -/
def calculateDelay (attempt : ℕ) (baseDelay maxDelay : ℚ) (jitter : Bool) (r : ℚ) : ℚ :=
  let exponentialDelay := min (baseDelay * 2 ^ (attempt - 1)) maxDelay
  if jitter then exponentialDelay + r * (exponentialDelay * (1 / 10))
  else exponentialDelay

/-- `RetryManager.isRetryableError`: 429/500/502/503/504, network errors and
throttling exceptions are retryable. -/
def isRetryableError (e : JsError) : Bool :=
  e.status == some 429 || e.status == some 500 || e.status == some 502 ||
  e.status == some 503 || e.status == some 504 ||
  e.name == some "NetworkError" || e.code == some "NetworkingError" ||
  e.name == some "ThrottlingException" || e.name == some "TooManyRequestsException"

/-- Caller-supplied `RetryOptions` (all fields optional). -/
structure RetryOptions where
  maxRetries : Option ℕ := none
  baseDelay : Option ℚ := none
  maxDelay : Option ℚ := none
  jitter : Option Bool := none

/-- Fully-populated options after merging over `DEFAULT_OPTIONS`. -/
structure RetryOptionsR where
  maxRetries : ℕ
  baseDelay : ℚ
  maxDelay : ℚ
  jitter : Bool

/-- `{ ...DEFAULT_OPTIONS, ...options }` with defaults
maxRetries=5, baseDelay=1000, maxDelay=30000, jitter=true. -/
def mergeOptions (o : RetryOptions) : RetryOptionsR :=
  ⟨o.maxRetries.getD 5, o.baseDelay.getD 1000, o.maxDelay.getD 30000, o.jitter.getD true⟩

/-- The delay chosen for a retryable error at a given attempt:
`let delay = extractRetryAfter(error); if (!delay) delay = calculateDelay(...)`.
A `0`/absent extraction result is falsy and falls through to backoff. -/
def nextDelay (e : JsError) (attempt : ℕ) (baseDelay maxDelay : ℚ) (jitter : Bool) (r : ℚ) : ℚ :=
  match extractRetryAfter e with
  | some v => if v = 0 then calculateDelay attempt baseDelay maxDelay jitter r else v
  | none => calculateDelay attempt baseDelay maxDelay jitter r

/-- Outcome of `RetryManager.retry` together with its observable effect
trace: `success/result/error/attempts/totalDelay` are the fields of the
returned `RetryResult`; `invocations` counts the calls of the operation
actually performed and `sleeps` lists the sleep durations in order. -/
structure RetryExec (T : Type) where
  success : Bool
  result : Option T
  error : Option JsError
  attempts : ℕ
  totalDelay : ℚ
  invocations : ℕ
  sleeps : List ℚ
deriving DecidableEq

/-- The loop `for (attempt = 1; attempt <= maxRetries + 1; attempt++)` of
`RetryManager.retry`, one recursive step per iteration. `fuel` is the number
of remaining permitted iterations (`maxRetries + 2 - attempt` at entry); the
failure return hardcodes `attempts: maxRetries + 1` exactly as the source
does. `totalDelay`, `invocations` and `sleeps` of the final record
accumulate over the recursion like the loop's running state. -/
def retryAux {T : Type} (op : ℕ → Except JsError T) (rand : ℕ → ℚ)
    (mr : ℕ) (base maxD : ℚ) (jit : Bool) : ℕ → ℕ → RetryExec T
  | fuel + 1, attempt =>
    match op attempt with
    | Except.ok v => ⟨true, some v, none, attempt, 0, 1, []⟩
    | Except.error e =>
      if mr < attempt then ⟨false, none, some e, mr + 1, 0, 1, []⟩
      else if isRetryableError e = false then ⟨false, none, some e, mr + 1, 0, 1, []⟩
      else
        let d := nextDelay e attempt base maxD jit (rand attempt)
        let rest := retryAux op rand mr base maxD jit fuel (attempt + 1)
        ⟨rest.success, rest.result, rest.error, rest.attempts,
         d + rest.totalDelay, rest.invocations + 1, d :: rest.sleeps⟩
  | 0, _ => ⟨false, none, none, mr + 1, 0, 0, []⟩

/-- `RetryManager.retry(fn, options)`. -/
def retry {T : Type} (op : ℕ → Except JsError T) (rand : ℕ → ℚ)
    (o : RetryOptions) : RetryExec T :=
  retryAux op rand (mergeOptions o).maxRetries (mergeOptions o).baseDelay
    (mergeOptions o).maxDelay (mergeOptions o).jitter
    ((mergeOptions o).maxRetries + 1) 1

/-! ## Bulk variant (`RetryManager.retryBulk`) -/

/-- One input to `retryBulk`: the operation's attempt-indexed outcomes
paired with its stream of random draws. -/
abbrev Oper (T : Type) := (ℕ → Except JsError T) × (ℕ → ℚ)

/-- The third argument handed to `onProgress`:
`result.success ? result.result || null : null` (`none` is JS `null`;
`truthy` is the JS truthiness of a `T` value). -/
def progressArg {T : Type} (truthy : T → Bool) (r : RetryExec T) : Option T :=
  if r.success then
    match r.result with
    | some v => if truthy v then some v else none
    | none => none
  else none

/-- One batch of `retryBulk`: each operation is retried, the shared
`completed` counter is incremented, and `onProgress(completed, total, arg)`
fires once per operation; the batch's results keep the batch order.
Returns (batch results, onProgress calls in order). -/
def processBatch {T : Type} (o : RetryOptions) (truthy : T → Bool) (total : ℕ) :
    List (Oper T) → ℕ → List (RetryExec T) × List (ℕ × ℕ × Option T)
  | [], _ => ([], [])
  | p :: rest, completed =>
    let r := retry p.1 p.2 o
    let tail := processBatch o truthy total rest (completed + 1)
    (r :: tail.1, (completed + 1, total, progressArg truthy r) :: tail.2)

/-- The loop `for (i = 0; i < operations.length; i += concurrency)` of
`retryBulk`: slice off a batch of `c` operations (`c ≥ 1`), process it,
then continue with the remainder; results of successive batches are
concatenated in submission order. -/
def retryBulkGo {T : Type} (o : RetryOptions) (truthy : T → Bool) (total c : ℕ) :
    List (Oper T) → ℕ → List (RetryExec T) × List (ℕ × ℕ × Option T)
  | [], _ => ([], [])
  | p :: rest, completed =>
    let batch := p :: rest.take (c - 1)
    let bres := processBatch o truthy total batch completed
    let tailOut := retryBulkGo o truthy total c (rest.drop (c - 1)) (completed + batch.length)
    (bres.1 ++ tailOut.1, bres.2 ++ tailOut.2)
termination_by l _ => l.length
decreasing_by simpa using Nat.lt_succ_of_le (Nat.sub_le rest.length (c - 1))

/-- `RetryManager.retryBulk(operations, options)`: `concurrency` defaults to
1 via JS `options.concurrency || 1`. Returns the ordered result list and the
sequence of `onProgress` calls. -/
def retryBulk {T : Type} (ops : List (Oper T)) (o : RetryOptions)
    (concurrency : Option ℕ) (truthy : T → Bool) :
    List (RetryExec T) × List (ℕ × ℕ × Option T) :=
  retryBulkGo o truthy ops.length (jsOrNat concurrency 1) ops 0

/-- The partition of the input list into the batches
`operations.slice(i, i + concurrency)` taken by `retryBulk`. -/
def chunkList {α : Type} (c : ℕ) : List α → List (List α)
  | [] => []
  | x :: xs => (x :: xs.take (c - 1)) :: chunkList c (xs.drop (c - 1))
termination_by l => l.length
decreasing_by simpa using Nat.lt_succ_of_le (Nat.sub_le xs.length (c - 1))

/-! ## JS values (for observing falsy results through `onProgress`) -/

/-- A JavaScript value as seen by `onProgress`'s third argument. -/
inductive JSVal where
  | undef : JSVal
  | null : JSVal
  | bool : Bool → JSVal
  | num : ℚ → JSVal
  | str : String → JSVal
deriving DecidableEq

/-- JS truthiness of a value. -/
def jsTruthy : JSVal → Bool
  | JSVal.undef => false
  | JSVal.null => false
  | JSVal.bool b => b
  | JSVal.num q => if q = 0 then false else true
  | JSVal.str s => if s = "" then false else true

/-! ## AwsRateLimiter -/

/-- One entry of `rateLimitHistory`. -/
structure HistEntry where
  lastRateLimit : ℚ
  suggestedDelay : ℚ
deriving DecidableEq

/-- The `rateLimitHistory` map, as an association list with JS `Map.set`
semantics (replace in place, else append). -/
abbrev HistMap := List (String × HistEntry)

/-- JS `Map.set`: overwrite the existing entry for the key in place,
otherwise append a new one. -/
def mapSet (m : HistMap) (k : String) (v : HistEntry) : HistMap :=
  match m with
  | [] => [(k, v)]
  | (k', v') :: rest =>
    if k' = k then (k, v) :: rest else (k', v') :: mapSet rest k v

/-- `AwsRateLimiter.getRateLimitKey`. -/
def getRateLimitKey (account region operation : String) : String :=
  account ++ ":" ++ region ++ ":" ++ operation

/-- `AwsRateLimiter.calculateAdaptiveDelay(key, baseDelay)` at current time
`now` (standing for `Date.now()`). -/
def calculateAdaptiveDelay (hist : HistMap) (now : ℚ) (key : String) (baseDelay : ℚ) : ℚ :=
  match hist.lookup key with
  | none => baseDelay
  | some h =>
    let timeSinceLastRateLimit := now - h.lastRateLimit
    if timeSinceLastRateLimit < 60000 then max h.suggestedDelay baseDelay
    else
      let reductionFactor := min (timeSinceLastRateLimit / 300000) (1 / 2)
      max (baseDelay * (1 - reductionFactor)) (baseDelay * (1 / 2))

/-- `AwsRateLimiter.recordRateLimit(key, retryAfter)` at time `now`:
stores the suggestion with a 20% buffer. -/
def recordRateLimit (hist : HistMap) (key : String) (retryAfter : ℚ) (now : ℚ) : HistMap :=
  mapSet hist key ⟨now, retryAfter * (12 / 10)⟩

/-- `AwsRateLimiter.extractRetryAfter`: first truthy among the AWS-specific
and standard retry-after headers, passed through `parseInt` (no conversion
to milliseconds, unlike `RetryManager.extractRetryAfter`). -/
def rlExtractRetryAfter (e : JsError) : Option ℤ :=
  let hs := e.headersD
  match jsOrStr (jsOrStr (jsOrStr (hs.lookup "x-amzn-ratelimit-retry-after")
      (hs.lookup "x-amzn-ratelimit-retryafter")) (hs.lookup "retry-after"))
      (hs.lookup "Retry-After") with
  | some s => if s = "" then none else parseInt s
  | none => none

/-- The `onRetry` closure returned by `getDeleteRetryOptions`, as a history
transformer: on a 429 error with a truthy parsed retry-after value, record
a rate-limit event for the key. -/
def deleteOnRetry (key : String) (now : ℚ) (hist : HistMap) (e : JsError) : HistMap :=
  if e.status = some 429 then
    match rlExtractRetryAfter e with
    | some v => if v = 0 then hist else recordRateLimit hist key (v : ℚ) now
    | none => hist
  else hist

/-- Caller-supplied `AwsRateLimiterOptions` (the fields used by
`getDeleteRetryOptions`). -/
structure AwsRateLimiterOptions where
  maxRetries : Option ℕ := none
  baseDelay : Option ℚ := none
  maxDelay : Option ℚ := none

/-- `AwsRateLimiter.getDeleteRetryOptions(account, region, options)`:
the retry options it returns (its `onRetry` closure is modelled separately
by `deleteOnRetry` on the same key). Note the source uses JS `||`, so a
present-but-zero override falls back to the default. -/
def getDeleteRetryOptions (hist : HistMap) (now : ℚ) (account region : String)
    (options : AwsRateLimiterOptions) : RetryOptionsR :=
  let key := getRateLimitKey account region "delete"
  let baseDelay := jsOrQ options.baseDelay 3000
  let adaptiveDelay := calculateAdaptiveDelay hist now key baseDelay
  { maxRetries := jsOrNat options.maxRetries 10
    baseDelay := adaptiveDelay
    maxDelay := jsOrQ options.maxDelay 120000
    jitter := true }

/-- `AwsRateLimiter.resetHistory()`. -/
def resetHistory (_hist : HistMap) : HistMap := []

/-- `AwsRateLimiter.getStats()`: fold over the history map counting entries
and summing suggested delays, then average. -/
def getStats (hist : HistMap) : ℚ × ℚ :=
  let totals := hist.foldl
    (fun (acc : ℚ × ℚ) kv => (acc.1 + 1, acc.2 + kv.2.suggestedDelay)) (0, 0)
  (totals.1, if 0 < totals.1 then totals.2 / totals.1 else 0)

/-! ## Concrete inputs used by witnesses and counterexamples -/

/-- A terminal (non-retryable) HTTP 400 error. -/
def err400 : JsError := ⟨some ⟨some 400, none⟩, none, none⟩

/-- A retryable HTTP 500 error with no headers. -/
def err500 : JsError := ⟨some ⟨some 500, none⟩, none, none⟩

/-- A 429 error carrying a `retry-after` header with the given value. -/
def err429 (s : String) : JsError :=
  ⟨some ⟨some 429, some [("retry-after", s)]⟩, none, none⟩

/-! ## Theorems -/

/-- C1: the claim as stated is false on the code. With the default options
(`maxRetries = 5`) and an operation that always fails with a terminal
HTTP 400 error, `retry` performs exactly one invocation, yet the returned
`attempts` field is `6 = maxRetries + 1`, not `1`: the failure return of
`RetryManager.retry` hardcodes `attempts: opts.maxRetries + 1`. -/
theorem c1_counterexample :
    (retry (T := Unit) (fun _ => Except.error err400) (fun _ => 0) {}).attempts = 6 ∧
    (retry (T := Unit) (fun _ => Except.error err400) (fun _ => 0) {}).invocations = 1 ∧
    isRetryableError err400 = false := by
  decide

/-- C1 (amended): for every non-retryable error raised on the first attempt,
`retry` invokes the operation exactly once, performs no sleeps, and returns
a failure whose `error` is the original failure value unchanged — but the
reported `attempts` field is `maxRetries + 1`, not `1`. -/
theorem c1_terminal_failure {T : Type} (op : ℕ → Except JsError T) (rand : ℕ → ℚ)
    (o : RetryOptions) (e : JsError)
    (hop : op 1 = Except.error e) (hterm : isRetryableError e = false) :
    retry op rand o =
      ⟨false, none, some e, (mergeOptions o).maxRetries + 1, 0, 1, []⟩ := by
  unfold retry
  rw [retryAux]
  simp only [hop]
  split_ifs
  · rfl
  · rfl

/-- C1 witness: the amended statement evaluated on an always-400 operation
under the default options. -/
theorem c1_terminal_failure_witness :
    retry (T := Unit) (fun _ => Except.error err400) (fun _ => 0) {} =
      ⟨false, none, some err400, 6, 0, 1, []⟩ := by
  exact c1_terminal_failure (fun _ => Except.error err400) (fun _ => 0) {} err400 rfl (by decide)

/-- C5: when the last rate-limit event for a key lies at least 60000 ms in
the past, `calculateAdaptiveDelay` returns
`max(baseDelay * (1 - min(elapsed / 300000, 1/2)), baseDelay * (1/2))`;
at `elapsed = 600000` this is exactly `baseDelay * (1/2)`, and in this
branch the result never falls below half the base delay. -/
theorem c5_gradual_recovery (hist : HistMap) (now baseDelay : ℚ) (key : String)
    (h : HistEntry) (hlk : hist.lookup key = some h)
    (helapsed : 60000 ≤ now - h.lastRateLimit) :
    calculateAdaptiveDelay hist now key baseDelay =
      max (baseDelay * (1 - min ((now - h.lastRateLimit) / 300000) (1 / 2)))
          (baseDelay * (1 / 2)) ∧
    (now - h.lastRateLimit = 600000 →
      calculateAdaptiveDelay hist now key baseDelay = baseDelay * (1 / 2)) ∧
    baseDelay * (1 / 2) ≤ calculateAdaptiveDelay hist now key baseDelay := by
  have hnot : ¬(now - h.lastRateLimit < 60000) := not_lt.mpr helapsed
  unfold calculateAdaptiveDelay
  simp only [hlk, hnot, if_false]
  refine ⟨trivial, ?_, le_max_right _ _⟩
  intro h6
  rw [h6]
  norm_num [min_def, max_def]

/-- C5 witness: a key rate-limited at time 0, queried at time 600000 with
baseDelay 3000, yields 1500. -/
theorem c5_gradual_recovery_witness :
    calculateAdaptiveDelay [("k", ⟨0, 100⟩)] 600000 "k" 3000 = 1500 := by
  have h := (c5_gradual_recovery [("k", ⟨0, 100⟩)] 600000 3000 "k" ⟨0, 100⟩
    (by decide) (by norm_num)).2.1 (by norm_num)
  rw [h]
  norm_num

/-- C7: the claim as stated is false on the code. With the overrides
`{maxRetries: 0, maxDelay: 0}` (present, equal to 0), the returned options
carry `maxRetries = 10` and `maxDelay = 120000`: the source uses JS `||`,
which treats a present 0 as absent. -/
theorem c7_counterexample :
    (getDeleteRetryOptions [] 0 "a" "r" ⟨some 0, none, some 0⟩).maxRetries = 10 ∧
    (getDeleteRetryOptions [] 0 "a" "r" ⟨some 0, none, some 0⟩).maxDelay = 120000 := by
  decide

/-- C7 (amended): `getDeleteRetryOptions` returns maxRetries =
overrides.maxRetries when present and nonzero, else 10; maxDelay =
overrides.maxDelay when present and nonzero, else 120000; jitter = true;
and baseDelay = the adaptive delay computed for the key
`account:region:delete` from the (same `||`-defaulted) base delay. -/
theorem c7_delete_options (hist : HistMap) (now : ℚ) (account region : String)
    (options : AwsRateLimiterOptions) :
    (getDeleteRetryOptions hist now account region options).maxRetries =
      (match options.maxRetries with
       | some v => if v = 0 then 10 else v
       | none => 10) ∧
    (getDeleteRetryOptions hist now account region options).maxDelay =
      (match options.maxDelay with
       | some v => if v = 0 then 120000 else v
       | none => 120000) ∧
    (getDeleteRetryOptions hist now account region options).jitter = true ∧
    (getDeleteRetryOptions hist now account region options).baseDelay =
      calculateAdaptiveDelay hist now (account ++ ":" ++ region ++ ":" ++ "delete")
        (match options.baseDelay with
         | some v => if v = 0 then 3000 else v
         | none => 3000) := by
  refine ⟨rfl, rfl, rfl, rfl⟩

/-- Helper: the Retry-After extraction succeeds and converts to milliseconds
when a 429 error carries a parseable positive `retry-after` header. -/
theorem extractRetryAfter_of_header (e : JsError) (m : ErrMeta)
    (hs : List (String × String)) (s : String) (n : ℤ)
    (hmeta : e.meta = some m) (hstatus : m.httpStatusCode = some 429)
    (hheaders : m.httpHeaders = some hs) (hlk : hs.lookup "retry-after" = some s)
    (hne : s ≠ "") (hparse : parseInt s = some n) (hpos : 0 < n) :
    extractRetryAfter e = some ((n : ℚ) * 1000) := by
  have hst : e.status = some 429 := by simp [JsError.status, hmeta, hstatus]
  have hhd : e.headersD = hs := by simp [JsError.headersD, hmeta, hheaders]
  unfold extractRetryAfter
  rw [if_pos hst, hhd, hlk]
  simp [jsOrStr, hne, hparse, hpos]

/-- Helper: a 429 error is classified as retryable. -/
theorem isRetryable_of_429 (e : JsError) (m : ErrMeta) (hmeta : e.meta = some m)
    (hstatus : m.httpStatusCode = some 429) : isRetryableError e = true := by
  simp [isRetryableError, JsError.status, hmeta, hstatus]

/-- C9: the configured `maxDelay` ceiling does not cap server-suggested
delays. For a 429 error whose `retry-after` header parses to a positive
integer `n` with `n * 1000 > maxDelay`, the sleep performed before the next
attempt is still `n * 1000` milliseconds. -/
theorem c9_header_overrides_max_delay {T : Type} (op : ℕ → Except JsError T)
    (rand : ℕ → ℚ) (o : RetryOptions) (e : JsError) (m : ErrMeta)
    (hs : List (String × String)) (s : String) (n : ℤ)
    (hmeta : e.meta = some m) (hstatus : m.httpStatusCode = some 429)
    (hheaders : m.httpHeaders = some hs) (hlk : hs.lookup "retry-after" = some s)
    (hne : s ≠ "") (hparse : parseInt s = some n) (hpos : 0 < n)
    (hop : op 1 = Except.error e) (hmr : 1 ≤ (mergeOptions o).maxRetries)
    (hbig : (mergeOptions o).maxDelay < (n : ℚ) * 1000) :
    (retry op rand o).sleeps.head? = some ((n : ℚ) * 1000) ∧
    (mergeOptions o).maxDelay < (n : ℚ) * 1000 := by
  refine ⟨?_, hbig⟩
  have hex := extractRetryAfter_of_header e m hs s n hmeta hstatus hheaders hlk hne hparse hpos
  have hret := isRetryable_of_429 e m hmeta hstatus
  have hq : (0 : ℚ) < (n : ℚ) := by exact_mod_cast hpos
  have hnz : ((n : ℚ) * 1000) ≠ 0 := by positivity
  unfold retry
  rw [retryAux]
  simp only [hop]
  rw [if_neg (by omega : ¬(mergeOptions o).maxRetries < 1),
      if_neg (by simp [hret])]
  simp only [nextDelay, hex]
  rw [if_neg hnz]
  rfl

/-- C9 witness: a 429 error suggesting 200 seconds under the default options
(`maxDelay = 30000`): the first sleep is 200000 ms, above the ceiling. -/
theorem c9_header_overrides_max_delay_witness :
    (retry (T := Unit) (fun _ => Except.error (err429 "200")) (fun _ => 0) {}).sleeps.head?
        = some ((200 : ℚ) * 1000) ∧
    (mergeOptions {}).maxDelay < (200 : ℚ) * 1000 :=
  c9_header_overrides_max_delay _ _ _ (err429 "200") _ _ "200" 200
    rfl rfl rfl (by decide) (by decide) (by decide) (by decide) rfl (by decide)
    (by norm_num [mergeOptions])

/-- C4: delay selection for a retryable error. If the error is a 429 whose
`retry-after` header parses to a positive integer `n` of seconds, the delay
is exactly `n * 1000` ms with no jitter; otherwise the delay on attempt `k`
is `min(baseDelay * 2^(k-1), maxDelay)`, plus, when jitter is enabled, the
draw-scaled amount `r * (that * 1/10)`, which lies in `[0, that/10]` for a
draw `r ∈ [0, 1)`. -/
theorem c4_delay_formula (e : JsError) (k : ℕ) (base maxD r : ℚ) (jit : Bool)
    (hr0 : 0 ≤ r) (hr1 : r < 1) (hb : 0 ≤ base) (hm : 0 ≤ maxD) :
    (∀ (m : ErrMeta) (hs : List (String × String)) (s : String) (n : ℤ),
      e.meta = some m → m.httpStatusCode = some 429 → m.httpHeaders = some hs →
      hs.lookup "retry-after" = some s → s ≠ "" → parseInt s = some n → 0 < n →
      nextDelay e k base maxD jit r = (n : ℚ) * 1000) ∧
    (extractRetryAfter e = none →
      nextDelay e k base maxD false r = min (base * 2 ^ (k - 1)) maxD ∧
      nextDelay e k base maxD true r
        = min (base * 2 ^ (k - 1)) maxD + r * (min (base * 2 ^ (k - 1)) maxD * (1 / 10)) ∧
      min (base * 2 ^ (k - 1)) maxD ≤ nextDelay e k base maxD true r ∧
      nextDelay e k base maxD true r
        ≤ min (base * 2 ^ (k - 1)) maxD + (1 / 10) * min (base * 2 ^ (k - 1)) maxD) := by
  constructor
  · intro m hs s n hmeta hstatus hheaders hlk hne hparse hpos
    have hex := extractRetryAfter_of_header e m hs s n hmeta hstatus hheaders hlk hne hparse hpos
    have hq : (0 : ℚ) < (n : ℚ) := by exact_mod_cast hpos
    have hnz : ((n : ℚ) * 1000) ≠ 0 := by positivity
    simp [nextDelay, hex, hnz]
  · intro hnone
    have hd0 : 0 ≤ min (base * 2 ^ (k - 1)) maxD :=
      le_min (by positivity) hm
    have hj0 : 0 ≤ r * (min (base * 2 ^ (k - 1)) maxD * (1 / 10)) := by positivity
    have hj1 : r * (min (base * 2 ^ (k - 1)) maxD * (1 / 10))
        ≤ (1 / 10) * min (base * 2 ^ (k - 1)) maxD := by
      have := mul_le_mul_of_nonneg_right hr1.le (by positivity :
        (0 : ℚ) ≤ min (base * 2 ^ (k - 1)) maxD * (1 / 10))
      linarith
    refine ⟨by simp [nextDelay, hnone, calculateDelay], ?_, ?_, ?_⟩
    · simp [nextDelay, hnone, calculateDelay]
    · simp only [nextDelay, hnone, calculateDelay, if_true]
      linarith
    · simp only [nextDelay, hnone, calculateDelay, if_true]
      linarith

/-- C4 witness: both paths at concrete inputs. A 429 with header "200" at
attempt 1 sleeps exactly 200000 ms regardless of jitter; a plain 500 at
attempt 2 with baseDelay 1000, maxDelay 30000 yields 2000 without jitter
and 2100 with jitter at draw 1/2. -/
theorem c4_delay_formula_witness :
    nextDelay (err429 "200") 1 1000 30000 true (1 / 2) = (200 : ℚ) * 1000 ∧
    nextDelay err500 2 1000 30000 false (1 / 2) = 2000 ∧
    nextDelay err500 2 1000 30000 true (1 / 2) = 2100 := by
  have h429 := (c4_delay_formula (err429 "200") 1 1000 30000 (1 / 2) true
    (by norm_num) (by norm_num) (by norm_num) (by norm_num)).1
    _ _ "200" 200 rfl rfl rfl (by decide) (by decide) (by decide) (by decide)
  have h500 := (c4_delay_formula err500 2 1000 30000 (1 / 2) true
    (by norm_num) (by norm_num) (by norm_num) (by norm_num)).2 (by decide)
  refine ⟨h429, ?_, ?_⟩
  · rw [h500.1]
    norm_num
  · rw [h500.2.1]
    norm_num

/-- C2: the code contradicts the claim. A 429 error with `retry-after: 5`
observed by the delete `onRetry` hook at time 1000 is recorded with
`suggestedDelay = 5 * 1.2 = 6`, not `5 * 1000 * 1.2 = 6000`:
`AwsRateLimiter.extractRetryAfter` omits the seconds-to-milliseconds
conversion that `RetryManager.extractRetryAfter` performs, so a
`calculateAdaptiveDelay` call 30000 ms later with baseDelay 3000 returns
`max(6, 3000) = 3000` where the claim requires `max(6000, 3000) = 6000`. -/
theorem c2_units_divergence :
    deleteOnRetry (getRateLimitKey "acct" "us-east-1" "delete") 1000 [] (err429 "5")
      = [(getRateLimitKey "acct" "us-east-1" "delete", ⟨1000, 6⟩)] ∧
    calculateAdaptiveDelay
      (deleteOnRetry (getRateLimitKey "acct" "us-east-1" "delete") 1000 [] (err429 "5"))
      31000 (getRateLimitKey "acct" "us-east-1" "delete") 3000 = 3000 ∧
    (3000 : ℚ) ≠ max ((5 : ℚ) * 1000 * (12 / 10)) 3000 := by
  have hex : rlExtractRetryAfter (err429 "5") = some 5 := by decide
  have hst : (err429 "5").status = some 429 := rfl
  have hrec : deleteOnRetry (getRateLimitKey "acct" "us-east-1" "delete") 1000 [] (err429 "5")
      = [(getRateLimitKey "acct" "us-east-1" "delete", ⟨1000, (5 : ℚ) * (12 / 10)⟩)] := by
    simp [deleteOnRetry, hex, hst, recordRateLimit, mapSet]
  have h6 : (5 : ℚ) * (12 / 10) = 6 := by norm_num
  rw [h6] at hrec
  refine ⟨hrec, ?_, ?_⟩
  · rw [hrec]
    unfold calculateAdaptiveDelay
    simp only [List.lookup_cons_self]
    norm_num [max_def]
  · norm_num [max_def]

/-- Helper: the stats fold accumulates the entry count and delay sum. -/
theorem statsFold_eq (hist : HistMap) (a b : ℚ) :
    hist.foldl (fun (acc : ℚ × ℚ) kv => (acc.1 + 1, acc.2 + kv.2.suggestedDelay)) (a, b)
      = (a + hist.length, b + (hist.map (fun kv => kv.2.suggestedDelay)).sum) := by
  induction hist generalizing a b with
  | nil => simp
  | cons kv t ih =>
    simp only [List.foldl_cons, List.map_cons, List.sum_cons, List.length_cons, ih]
    rw [Prod.mk.injEq]
    refine ⟨?_, by ring⟩
    push_cast
    ring

/-- C8: `getStats` after `resetHistory` is `(0, 0)`; in general `getStats`
is a pure function of the history returning the entry count (the number of
distinct keys, the map having one entry per key) and the mean of the
recorded suggested delays. -/
theorem c8_reset_and_stats (h0 : HistMap) :
    getStats (resetHistory h0) = (0, 0) ∧
    (∀ hist : HistMap,
      getStats hist = ((hist.length : ℚ),
        if hist.length = 0 then 0
        else (hist.map (fun kv => kv.2.suggestedDelay)).sum / (hist.length : ℚ))) ∧
    (∀ hist : HistMap, (hist.map Prod.fst).Nodup →
      (getStats hist).1 = ((hist.map Prod.fst).toFinset.card : ℚ)) := by
  have hstats : ∀ hist : HistMap,
      getStats hist = ((hist.length : ℚ),
        if hist.length = 0 then 0
        else (hist.map (fun kv => kv.2.suggestedDelay)).sum / (hist.length : ℚ)) := by
    intro hist
    simp only [getStats]
    rw [statsFold_eq]
    simp only [zero_add]
    by_cases hl : hist.length = 0
    · simp [hl]
    · have hpos : (0 : ℚ) < hist.length := by
        exact_mod_cast Nat.pos_of_ne_zero hl
      rw [if_pos hpos, if_neg hl]
  refine ⟨by simp [hstats, resetHistory], hstats, ?_⟩
  intro hist hnd
  rw [hstats]
  simp [List.toFinset_card_of_nodup hnd]

/-- C8 witness: reset yields `(0, 0)`, and a two-key history counts 2. -/
theorem c8_reset_and_stats_witness :
    getStats (resetHistory [("a", ⟨0, 10⟩)]) = (0, 0) ∧
    (getStats [("a", ⟨0, 10⟩), ("b", ⟨0, 20⟩)]).1 = 2 := by
  have h := c8_reset_and_stats [("a", ⟨0, 10⟩)]
  refine ⟨h.1, ?_⟩
  have h3 := h.2.2 [("a", ⟨0, 10⟩), ("b", ⟨0, 20⟩)] (by decide)
  rw [h3]
  decide

/-- Helper: an operation that succeeds on the first attempt returns
immediately with attempts = invocations = 1 and no sleeps. -/
theorem retry_first_success {T : Type} (op : ℕ → Except JsError T) (rand : ℕ → ℚ)
    (o : RetryOptions) (v : T) (hop : op 1 = Except.ok v) :
    retry op rand o = ⟨true, some v, none, 1, 0, 1, []⟩ := by
  unfold retry
  rw [retryAux]
  simp [hop]

/-- C10: a successful operation whose resolved value is falsy is reported to
`onProgress` with `null` as the third argument — indistinguishable from a
failed operation — even though its `RetryResult.success` is `true`,
because the source passes `result.success ? result.result || null : null`. -/
theorem c10_falsy_progress_null (v : JSVal) (hfalsy : jsTruthy v = false) :
    (∀ r : RetryExec JSVal, r.success = true → r.result = some v →
      progressArg jsTruthy r = none) ∧
    (∀ r : RetryExec JSVal, r.success = false → progressArg jsTruthy r = none) ∧
    (retryBulk [(fun _ => Except.ok v, fun _ => 0)] {} none jsTruthy).2 = [(1, 1, none)] ∧
    (retryBulk [(fun _ => Except.ok v, fun _ => 0)] {} none jsTruthy).1.map
      (fun r => r.success) = [true] := by
  have hr := retry_first_success (T := JSVal) (fun _ => Except.ok v) (fun _ => 0) {} v rfl
  refine ⟨?_, ?_, ?_, ?_⟩
  · intro r hs hres
    simp [progressArg, hs, hres, hfalsy]
  · intro r hs
    simp [progressArg, hs]
  · show (retryBulkGo {} jsTruthy 1 (jsOrNat none 1) [(fun _ => Except.ok v, fun _ => 0)] 0).2
      = [(1, 1, none)]
    rw [retryBulkGo]
    simp [processBatch, retryBulkGo, hr, progressArg, hfalsy]
  · show (retryBulkGo {} jsTruthy 1 (jsOrNat none 1) [(fun _ => Except.ok v, fun _ => 0)] 0).1.map
      (fun r => r.success) = [true]
    rw [retryBulkGo]
    simp [processBatch, retryBulkGo, hr]

/-- C10 witness: the number 0 is a falsy success value; its progress record
carries `null` while the result itself is a success. -/
theorem c10_falsy_progress_null_witness :
    (retryBulk [(fun _ => Except.ok (JSVal.num 0), fun _ => 0)] {} none jsTruthy).2
      = [(1, 1, none)] ∧
    (retryBulk [(fun _ => Except.ok (JSVal.num 0), fun _ => 0)] {} none jsTruthy).1.map
      (fun r => r.success) = [true] := by
  have h := c10_falsy_progress_null (JSVal.num 0) (by decide)
  exact ⟨h.2.2.1, h.2.2.2⟩

/-- Helper: the invariants of the retry loop, proved in one induction over
the remaining fuel: totalDelay accumulates the sleeps; on success the
reported attempts equal the attempt index reached (hence the invocation
count from the start index); every failure reports `maxRetries + 1`;
attempts never exceed `maxRetries + 1`; and when every attempt fails with a
retryable error the loop consumes all its fuel. -/
theorem retryAux_spec {T : Type} (op : ℕ → Except JsError T) (rand : ℕ → ℚ)
    (mr : ℕ) (base maxD : ℚ) (jit : Bool) :
    ∀ fuel a,
      ((retryAux op rand mr base maxD jit fuel a).totalDelay
        = (retryAux op rand mr base maxD jit fuel a).sleeps.sum) ∧
      ((retryAux op rand mr base maxD jit fuel a).success = true →
        (retryAux op rand mr base maxD jit fuel a).attempts + 1
          = a + (retryAux op rand mr base maxD jit fuel a).invocations) ∧
      ((retryAux op rand mr base maxD jit fuel a).success = false →
        (retryAux op rand mr base maxD jit fuel a).attempts = mr + 1) ∧
      (a ≤ mr + 1 → (retryAux op rand mr base maxD jit fuel a).attempts ≤ mr + 1) ∧
      ((∀ k, ∃ e, op k = Except.error e ∧ isRetryableError e = true) →
        fuel + a = mr + 2 →
        (retryAux op rand mr base maxD jit fuel a).success = false ∧
        (retryAux op rand mr base maxD jit fuel a).invocations = fuel) := by
  intro fuel
  induction fuel with
  | zero =>
    intro a
    exact ⟨rfl, fun h => Bool.noConfusion h, fun _ => rfl, fun _ => Nat.le_refl _,
      fun _ _ => ⟨rfl, rfl⟩⟩
  | succ n ih =>
    intro a
    rw [retryAux]
    cases hop : op a with
    | ok v =>
      refine ⟨rfl, fun _ => rfl, fun h => Bool.noConfusion h, fun ha => ha, ?_⟩
      intro hall _
      obtain ⟨e, he, _⟩ := hall a
      rw [hop] at he
      exact Except.noConfusion he
    | error e =>
      simp only []
      by_cases h1 : mr < a
      · rw [if_pos h1]
        refine ⟨rfl, fun h => Bool.noConfusion h, fun _ => rfl, fun _ => Nat.le_refl _, ?_⟩
        intro _ hfa
        refine ⟨rfl, ?_⟩
        show (1 : ℕ) = n + 1
        omega
      · by_cases h2 : isRetryableError e = false
        · rw [if_neg h1, if_pos h2]
          refine ⟨rfl, fun h => Bool.noConfusion h, fun _ => rfl, fun _ => Nat.le_refl _, ?_⟩
          intro hall _
          obtain ⟨e2, he2, hr2⟩ := hall a
          rw [hop] at he2
          injection he2 with he3
          rw [← he3, h2] at hr2
          exact Bool.noConfusion hr2
        · rw [if_neg h1, if_neg h2]
          have hx := ih (a + 1)
          have ha2 : a ≤ mr := Nat.le_of_not_lt h1
          refine ⟨?_, ?_, ?_, ?_, ?_⟩
          · show _ + _ = (List.sum (_ :: _))
            rw [List.sum_cons, hx.1]
          · intro hs
            have h2' := hx.2.1 hs
            show (retryAux op rand mr base maxD jit n (a + 1)).attempts + 1
              = a + ((retryAux op rand mr base maxD jit n (a + 1)).invocations + 1)
            omega
          · intro hs
            exact hx.2.2.1 hs
          · intro _
            exact hx.2.2.2.1 (by omega)
          · intro hall hfa
            have hy := hx.2.2.2.2 hall (by omega)
            refine ⟨hy.1, ?_⟩
            show (retryAux op rand mr base maxD jit n (a + 1)).invocations + 1 = n + 1
            omega

/-- C3: the claim as stated is false on the code. An operation failing with
a terminal HTTP 400 error is invoked exactly once, yet the failure return
reports `attempts = 6` under the default `maxRetries = 5`, so `attempts`
does not equal the number of invocations performed. -/
theorem c3_counterexample :
    (retry (T := Unit) (fun _ => Except.error err400) (fun _ => 0) {}).invocations = 1 ∧
    (retry (T := Unit) (fun _ => Except.error err400) (fun _ => 0) {}).attempts = 6 := by
  decide

/-- C3 (amended): `attempts` equals the number of invocations whenever the
call succeeds, and never exceeds `maxRetries + 1`; every failure reports
`attempts = maxRetries + 1` regardless of how many invocations were
performed (they coincide when all attempts fail with retryable errors,
where both equal `maxRetries + 1`); `totalDelay` is the sum of the sleeps
performed. -/
theorem c3_attempts_accounting {T : Type} (op : ℕ → Except JsError T)
    (rand : ℕ → ℚ) (o : RetryOptions) :
    (retry op rand o).totalDelay = (retry op rand o).sleeps.sum ∧
    ((retry op rand o).success = true →
      (retry op rand o).attempts = (retry op rand o).invocations) ∧
    ((retry op rand o).success = false →
      (retry op rand o).attempts = (mergeOptions o).maxRetries + 1) ∧
    (retry op rand o).attempts ≤ (mergeOptions o).maxRetries + 1 ∧
    ((∀ k, ∃ e, op k = Except.error e ∧ isRetryableError e = true) →
      (retry op rand o).success = false ∧
      (retry op rand o).invocations = (mergeOptions o).maxRetries + 1 ∧
      (retry op rand o).attempts = (mergeOptions o).maxRetries + 1) := by
  unfold retry
  have h := retryAux_spec op rand (mergeOptions o).maxRetries (mergeOptions o).baseDelay
    (mergeOptions o).maxDelay (mergeOptions o).jitter ((mergeOptions o).maxRetries + 1) 1
  refine ⟨h.1, ?_, h.2.2.1, h.2.2.2.1 (by omega), ?_⟩
  · intro hs
    have h2' := h.2.1 hs
    omega
  · intro hall
    have hx := h.2.2.2.2 hall (by omega)
    exact ⟨hx.1, hx.2, h.2.2.1 hx.1⟩

/-- C3 witness: an operation always failing with a retryable HTTP 500 under
the default options is invoked 6 times and reports `attempts = 6`. -/
theorem c3_attempts_accounting_witness :
    (retry (T := Unit) (fun _ => Except.error err500) (fun _ => 0) {}).success = false ∧
    (retry (T := Unit) (fun _ => Except.error err500) (fun _ => 0) {}).invocations = 6 := by
  have h := (c3_attempts_accounting (T := Unit) (fun _ => Except.error err500)
    (fun _ => 0) {}).2.2.2.2 (fun k => ⟨err500, rfl, by decide⟩)
  exact ⟨h.1, h.2.1.trans (by decide)⟩

/-- Helper: the defaulted concurrency `options.concurrency || 1` is at
least 1. -/
theorem jsOrNat_one_le (x : Option ℕ) : 1 ≤ jsOrNat x 1 := by
  cases x with
  | none => simp [jsOrNat]
  | some v =>
    by_cases hv : v = 0
    · simp [jsOrNat, hv]
    · simp only [jsOrNat, if_neg hv]
      omega

/-- Helper: a batch produces one result per operation, in batch order. -/
theorem processBatch_results {T : Type} (o : RetryOptions) (ty : T → Bool) (total : ℕ) :
    ∀ (l : List (Oper T)) (completed : ℕ),
      (processBatch o ty total l completed).1 = l.map (fun p => retry p.1 p.2 o) := by
  intro l
  induction l with
  | nil => intro _; rfl
  | cons p rest ih =>
    intro completed
    simp only [processBatch, List.map_cons]
    rw [ih]

/-- Helper: a batch starting at counter value `completed` reports the
completed counts `completed+1, …, completed + batch size`, in order. -/
theorem processBatch_progress {T : Type} (o : RetryOptions) (ty : T → Bool) (total : ℕ) :
    ∀ (l : List (Oper T)) (completed : ℕ),
      (processBatch o ty total l completed).2.map (fun t => t.1)
        = List.range' (completed + 1) l.length := by
  intro l
  induction l with
  | nil => intro _; rfl
  | cons p rest ih =>
    intro completed
    simp only [processBatch, List.map_cons, List.length_cons, List.range'_succ]
    rw [ih]

/-- Helper: all results of `retryBulkGo`, across batches, in input order
(stated with an explicit bound on the list length for the induction). -/
theorem retryBulkGo_results_bounded {T : Type} (o : RetryOptions) (ty : T → Bool)
    (total c : ℕ) :
    ∀ (n : ℕ) (l : List (Oper T)), l.length ≤ n → ∀ completed : ℕ,
      (retryBulkGo o ty total c l completed).1 = l.map (fun p => retry p.1 p.2 o) := by
  intro n
  induction n with
  | zero =>
    intro l hl completed
    obtain rfl : l = [] := List.length_eq_zero.mp (Nat.le_zero.mp hl)
    rw [retryBulkGo]
    rfl
  | succ n ih =>
    intro l hl completed
    cases l with
    | nil =>
      rw [retryBulkGo]
      rfl
    | cons p rest =>
      have hrest : rest.length ≤ n := by
        rw [List.length_cons] at hl
        omega
      rw [retryBulkGo]
      simp only []
      rw [processBatch_results,
        ih (rest.drop (c - 1)) (by rw [List.length_drop]; omega)
          (completed + (p :: rest.take (c - 1)).length),
        ← List.map_append, List.cons_append, List.take_append_drop]

/-- Helper: all results of `retryBulkGo`, across batches, in input order. -/
theorem retryBulkGo_results {T : Type} (o : RetryOptions) (ty : T → Bool) (total c : ℕ)
    (l : List (Oper T)) (completed : ℕ) :
    (retryBulkGo o ty total c l completed).1 = l.map (fun p => retry p.1 p.2 o) :=
  retryBulkGo_results_bounded o ty total c l.length l (Nat.le_refl _) completed

/-- Helper: the completed counts reported across all batches are
`completed+1, …, completed + input size`, in order (bounded form). -/
theorem retryBulkGo_progress_bounded {T : Type} (o : RetryOptions) (ty : T → Bool)
    (total c : ℕ) :
    ∀ (n : ℕ) (l : List (Oper T)), l.length ≤ n → ∀ completed : ℕ,
      (retryBulkGo o ty total c l completed).2.map (fun t => t.1)
        = List.range' (completed + 1) l.length := by
  intro n
  induction n with
  | zero =>
    intro l hl completed
    obtain rfl : l = [] := List.length_eq_zero.mp (Nat.le_zero.mp hl)
    rw [retryBulkGo]
    rfl
  | succ n ih =>
    intro l hl completed
    cases l with
    | nil =>
      rw [retryBulkGo]
      rfl
    | cons p rest =>
      have hrest : rest.length ≤ n := by
        rw [List.length_cons] at hl
        omega
      rw [retryBulkGo]
      simp only [List.map_append]
      rw [processBatch_progress,
        ih (rest.drop (c - 1)) (by rw [List.length_drop]; omega)
          (completed + (p :: rest.take (c - 1)).length)]
      have hy : completed + (p :: rest.take (c - 1)).length + 1
          = (completed + 1) + 1 * (p :: rest.take (c - 1)).length := by
        omega
      rw [hy, List.range'_append]
      have hlen : (rest.drop (c - 1)).length + (p :: rest.take (c - 1)).length
          = (p :: rest).length := by
        simp only [List.length_cons, List.length_take, List.length_drop]
        omega
      rw [hlen]

/-- Helper: the completed counts reported across all batches are
`completed+1, …, completed + input size`, in order. -/
theorem retryBulkGo_progress {T : Type} (o : RetryOptions) (ty : T → Bool) (total c : ℕ)
    (l : List (Oper T)) (completed : ℕ) :
    (retryBulkGo o ty total c l completed).2.map (fun t => t.1)
      = List.range' (completed + 1) l.length :=
  retryBulkGo_progress_bounded o ty total c l.length l (Nat.le_refl _) completed

/-- Helper: the batches partition the input list. -/
theorem chunkList_flatten {α : Type} (c : ℕ) (l : List α) :
    (chunkList c l).flatten = l := by
  induction l using chunkList.induct c with
  | case1 =>
    rw [chunkList]
    rfl
  | case2 x xs ih =>
    rw [chunkList]
    simp only [List.flatten_cons, ih]
    rw [List.cons_append, List.take_append_drop]

/-- Helper: every batch is nonempty and no larger than the concurrency. -/
theorem chunkList_sizes {α : Type} (c : ℕ) (hc : 1 ≤ c) (l : List α) :
    ∀ b ∈ chunkList c l, b ≠ [] ∧ b.length ≤ c := by
  induction l using chunkList.induct c with
  | case1 =>
    intro b hb
    rw [chunkList] at hb
    cases hb
  | case2 x xs ih =>
    intro b hb
    rw [chunkList] at hb
    rcases List.mem_cons.mp hb with hb1 | hb2
    · subst hb1
      refine ⟨by simp, ?_⟩
      simp only [List.length_cons, List.length_take]
      omega
    · exact ih b hb2

/-- C6: `retryBulk` partitions its input into successive batches of the
(`|| 1`-defaulted) concurrency, processes them batch after batch, returns
one retry result per input operation in submission order (equal to the
concatenation of the per-batch results), and fires `onProgress` exactly
once per operation with completed counts `1, …, total` in increasing
order. -/
theorem c6_retry_bulk {T : Type} (ops : List (Oper T)) (o : RetryOptions)
    (conc : Option ℕ) (ty : T → Bool) :
    (retryBulk ops o conc ty).1 = ops.map (fun p => retry p.1 p.2 o) ∧
    (retryBulk ops o conc ty).1
      = ((chunkList (jsOrNat conc 1) ops).map
          (fun b => b.map (fun p => retry p.1 p.2 o))).flatten ∧
    (chunkList (jsOrNat conc 1) ops).flatten = ops ∧
    (∀ b ∈ chunkList (jsOrNat conc 1) ops, b ≠ [] ∧ b.length ≤ jsOrNat conc 1) ∧
    (retryBulk ops o conc ty).2.length = ops.length ∧
    (retryBulk ops o conc ty).2.map (fun t => t.1) = List.range' 1 ops.length := by
  have hres := retryBulkGo_results o ty ops.length (jsOrNat conc 1) ops 0
  have hprog := retryBulkGo_progress o ty ops.length (jsOrNat conc 1) ops 0
  have hflat := chunkList_flatten (jsOrNat conc 1) ops
  unfold retryBulk
  refine ⟨hres, ?_, hflat, chunkList_sizes _ (jsOrNat_one_le conc) ops, ?_, ?_⟩
  · rw [hres, ← List.map_flatten, hflat]
  · have hl := congrArg List.length hprog
    simpa using hl
  · simpa using hprog

/-- C6 witness: five trivial operations at concurrency 2 form batches of
sizes 2, 2, 1 and report completed counts 1, 2, 3, 4, 5 in order. -/
theorem c6_retry_bulk_witness :
    ((chunkList 2 (List.replicate 5 ((fun _ => Except.ok 0, fun _ => 0) : Oper ℚ))).map
        List.length = [2, 2, 1]) ∧
    (retryBulk (List.replicate 5 ((fun _ => Except.ok 0, fun _ => 0) : Oper ℚ)) {}
        (some 2) (fun _ => true)).2.map (fun t => t.1) = [1, 2, 3, 4, 5] := by
  have h := c6_retry_bulk (List.replicate 5 ((fun _ => Except.ok 0, fun _ => 0) : Oper ℚ))
    {} (some 2) (fun _ => true)
  refine ⟨?_, ?_⟩
  · show (chunkList 2 [((fun _ => Except.ok 0, fun _ => 0) : Oper ℚ),
      (fun _ => Except.ok 0, fun _ => 0), (fun _ => Except.ok 0, fun _ => 0),
      (fun _ => Except.ok 0, fun _ => 0), (fun _ => Except.ok 0, fun _ => 0)]).map
        List.length = [2, 2, 1]
    simp [chunkList]
  · rw [h.2.2.2.2.2]
    decide

end ApiSpawner
